import Mathlib

/-!
Verification of the request correlation and broadcast dispatch engine of
`src/backend-server.ts` (mcp-backend).

The engine is embedded shallowly:
* `ServerState` models the server's mutable state: the `pendingRequests`
  map (as a list of entries with distinct ids), the set of armed per-request
  timers, the `wsClients` count, the `postDataStore`, and — as history
  variables — the outcomes delivered to waiting dispatch callers
  (`resolved`) plus a fresh-id counter standing for `uuidv4`.
* Each event handler of the source (the tool endpoints, the WebSocket
  message handler, a per-request timer firing, the periodic cleanup
  interval) becomes a state-transition function, and `step` ties them into
  a small-step semantics.  Time is explicit: `advance` moves the clock but
  never past the deadline of an armed timer, reflecting that `setTimeout`
  callbacks run once their delay elapses.
-/

namespace McpBackend

/-- A JSON scalar value, as carried in WebSocket message payloads. -/
inductive JVal where
  | null : JVal
  | bool (b : Bool) : JVal
  | num (n : Int) : JVal
  | str (s : String) : JVal
deriving DecidableEq

/-- A JSON object: ordered field list; a later binding of a key shadows an
earlier one, as with the JS object-spread operator. -/
abbrev JObj := List (String × JVal)

/-- JavaScript truthiness of a value (`false`, `0`, `""`, `null` are falsy). -/
def jsTruthy : JVal → Bool
  | .null => false
  | .bool b => b
  | .num n => n != 0
  | .str s => s != ""

/-- Field lookup in a `JObj`: the last binding of the key wins, matching the
semantics of a JS object literal with spread (later keys overwrite). -/
def getField : JObj → String → Option JVal
  | [], _ => none
  | p :: rest, k =>
    match getField rest k with
    | some v => some v
    | none => if p.1 == k then some p.2 else none

/-- Truthiness of the `success` field of a callback result object, as tested
by `if (result.success)` in each HTTP handler (a missing field is falsy). -/
def outcomeSuccess (o : JObj) : Bool :=
  match getField o "success" with
  | some v => jsTruthy v
  | none => false

/-- The request kinds of `BrowserRequest.type` in the source. -/
inductive ReqType where
  | new_post
  | show_alert
  | execute
  | capture_dom
  | capture_screenshot
  | navigate
deriving DecidableEq

/-- `LinkedInPostData` of the source (timestamps as naturals). -/
structure LinkedInPostData where
  content : String
  timestamp : Nat
  metadata : Option JObj
deriving DecidableEq

/-- One entry of the `pendingRequests` map: its id, request type, creation
time and the delay of its armed `setTimeout` timer. -/
structure Entry where
  id : Nat
  rtype : ReqType
  createdAt : Nat
  timeoutMs : Nat
deriving DecidableEq

/-- The instant the entry's per-request timer fires. -/
def Entry.deadline (e : Entry) : Nat := e.createdAt + e.timeoutMs

/-- The timeout error message each handler's timer callback resolves with. -/
def timeoutMsg : ReqType → Nat → String
  | .new_post, _ => "Request timed out after 30 seconds"
  | .show_alert, _ => "Request timed out after 10 seconds"
  | .execute, ms => "Request timed out after " ++ toString ms ++ "ms"
  | .capture_dom, _ => "Request timed out after 10 seconds"
  | .capture_screenshot, _ => "Request timed out after 10 seconds"
  | .navigate, _ => "Request timed out after 30 seconds"

/-- The terminal outcome a dispatch call's promise was resolved with,
tagged by the resolution path (completion message, failure message,
per-request timer, reaper sweep). -/
inductive Outcome where
  | fromCompletion (result : JObj)
  | fromFailure (error : JVal)
  | fromTimer (rtype : ReqType) (timeoutMs : Nat)
  | fromReaper
deriving DecidableEq

/-- The JS object the promise is resolved with on each path:
`{ success: true, ...data.result }` for a completion (spread: the result's
own fields come after and shadow `success`), `{ success: false, error }`
otherwise. -/
def Outcome.toObj : Outcome → JObj
  | .fromCompletion result => ("success", JVal.bool true) :: result
  | .fromFailure err => [("success", JVal.bool false), ("error", err)]
  | .fromTimer t ms => [("success", JVal.bool false), ("error", JVal.str (timeoutMsg t ms))]
  | .fromReaper => [("success", JVal.bool false), ("error", JVal.str "Request expired")]

/-- The server state of `backend-server.ts`.  `resolved` is a history
variable recording, per request id, the one outcome delivered to that
dispatch call's waiting promise; `counter` is the fresh-id source standing
for `uuidv4` (ids are globally unique for the process lifetime). -/
structure ServerState where
  now : Nat
  counter : Nat
  clients : Nat
  pending : List Entry
  timers : List Nat
  resolved : List (Nat × Outcome)
  posts : List LinkedInPostData
deriving DecidableEq

def initState : ServerState := ⟨0, 0, 0, [], [], [], []⟩

/-- Ids of the entries of the pending table. -/
def pendingIds (s : ServerState) : List Nat := s.pending.map Entry.id

/-- Ids whose dispatch call has been delivered an outcome. -/
def resolvedIds (s : ServerState) : List Nat := s.resolved.map Prod.fst

/-- `pendingRequests.get(id)`. -/
def findEntry (l : List Entry) (id : Nat) : Option Entry :=
  l.find? (fun e => e.id == id)

/-- JS `Map.set` semantics: an existing binding of the key is silently
replaced in place; a new key is appended in insertion order. -/
def mapSet (m : List Entry) (e : Entry) : List Entry :=
  if m.any (fun x => x.id == e.id) then
    m.map (fun x => if x.id == e.id then e else x)
  else
    m ++ [e]

/-- Resolve the waiting promise of `id` with outcome `o` and remove the
entry: `clearTimeout(pending.timeout); pending.callback(...);
pendingRequests.delete(id)` — one atomic turn of the event loop. -/
def resolveEntry (s : ServerState) (id : Nat) (o : Outcome) : ServerState :=
  { s with
    pending := s.pending.filter (fun e => e.id != id)
    timers := s.timers.filter (fun t => t != id)
    resolved := s.resolved ++ [(id, o)] }

/-- Inbound WebSocket messages handled by `ws.on('message', ...)`. -/
inductive InMsg where
  | requestComplete (requestId : Nat) (result : JObj)
  | requestFailed (requestId : Nat) (error : JVal)
  | getLatestPost
  | unknownMsg
deriving DecidableEq

/-- The WebSocket message handler: a completion or failure for a pending id
clears its timer, resolves its callback and deletes the entry; anything
else (unknown id, `get_latest_post`, unrecognized type) leaves the state
unchanged. -/
def handleMessage (s : ServerState) (m : InMsg) : ServerState :=
  match m with
  | .requestComplete rid result =>
    match findEntry s.pending rid with
    | some _ => resolveEntry s rid (.fromCompletion result)
    | none => s
  | .requestFailed rid err =>
    match findEntry s.pending rid with
    | some _ => resolveEntry s rid (.fromFailure err)
    | none => s
  | .getLatestPost => s
  | .unknownMsg => s

/-- A per-request `setTimeout` callback firing: it runs only if the timer is
still armed (never cleared) and its delay has elapsed; it deletes the entry
and resolves the promise with the per-kind timeout error. -/
def fireTimer (s : ServerState) (id : Nat) : ServerState :=
  match findEntry s.pending id with
  | some e =>
    if id ∈ s.timers ∧ e.deadline ≤ s.now then
      resolveEntry s id (.fromTimer e.rtype e.timeoutMs)
    else s
  | none => s

/-- `now - request.timestamp.getTime() > 60000`: the reaper's staleness
test, a fixed 60-second ceiling on entry age. -/
def isStale (now : Nat) (e : Entry) : Bool := 60000 < now - e.createdAt

/-- One tick of the periodic cleanup `setInterval`: every entry older than
60 seconds has its timer cleared, its callback resolved with
`{ success: false, error: 'Request expired' }`, and is deleted. -/
def sweepExpired (s : ServerState) : ServerState :=
  let stale := s.pending.filter (fun e => isStale s.now e)
  { s with
    pending := s.pending.filter (fun e => !(isStale s.now e))
    timers := s.timers.filter (fun t => !((stale.map Entry.id).contains t))
    resolved := s.resolved ++ stale.map (fun e => (e.id, Outcome.fromReaper)) }

/-- The tool endpoints of the HTTP API. -/
inductive ToolCall where
  | createPost (content : String) (metadata : Option JObj)
  | showAlert (message : String) (title : Option String)
  | browserExecute (code : String) (url targetSite : Option String) (timeout : Option Nat)
  | captureDom (selector : Option String) (includeMetadata : Option Bool)
  | captureScreenshot (selector : Option String) (fullPage : Option Bool) (quality : Option Nat)
  | navigate (url : String) (waitFor : Option String)
  | getPostData
  | status
deriving DecidableEq

/-- The synchronous responses of a tool endpoint: a 400 validation error, a
503 when no extension is connected, registration of a pending request (the
HTTP reply then awaits that request's outcome), or data for the read-only
endpoints. -/
inductive ToolResp where
  | badRequest (msg : String)
  | noExecutor (msg : String)
  | registered (id : Nat)
  | postData (p : Option LinkedInPostData)
  | statusInfo (clients pendingCount posts : Nat)
deriving DecidableEq

/-- JS `x || d` for an optional numeric parameter (`0` is falsy). -/
def orDefault (x : Option Nat) (d : Nat) : Nat :=
  match x with
  | some n => if n = 0 then d else n
  | none => d

def noExtMsg : String := "No browser extension connected. Please ensure the extension is active."

def noExtLinkedInMsg : String :=
  "No browser extension connected. Please ensure the extension is active on a LinkedIn tab."

/-- The common dispatch tail of every tool handler: generate a fresh id,
arm the timer (`setTimeout`), insert into `pendingRequests` (`Map.set`),
broadcast to all clients. -/
def registerRequest (s : ServerState) (t : ReqType) (timeoutMs : Nat) :
    ServerState × ToolResp :=
  let id := s.counter
  let e : Entry := ⟨id, t, s.now, timeoutMs⟩
  ({ s with
      counter := id + 1
      pending := mapSet s.pending e
      timers := id :: s.timers }, .registered id)

/-- The tool endpoint handlers, each mirroring its Express route: parameter
validation first, then the `wsClients.size === 0` check, then dispatch with
the route's request type and timeout. `create_linkedin_post` pushes the
post into `postDataStore` before registering and broadcasting. -/
def handleTool (s : ServerState) (tc : ToolCall) : ServerState × ToolResp :=
  match tc with
  | .createPost content metadata =>
    if content = "" then (s, .badRequest "Content is required")
    else if s.clients = 0 then (s, .noExecutor noExtLinkedInMsg)
    else
      let post : LinkedInPostData := ⟨content, s.now, metadata⟩
      registerRequest { s with posts := s.posts ++ [post] } .new_post 30000
  | .showAlert message _ =>
    if message = "" then (s, .badRequest "Message is required")
    else if s.clients = 0 then (s, .noExecutor noExtLinkedInMsg)
    else registerRequest s .show_alert 10000
  | .browserExecute code _ _ timeout =>
    if code = "" then (s, .badRequest "Code is required")
    else if s.clients = 0 then (s, .noExecutor noExtMsg)
    else registerRequest s .execute (orDefault timeout 30000)
  | .captureDom _ _ =>
    if s.clients = 0 then (s, .noExecutor noExtMsg)
    else registerRequest s .capture_dom 10000
  | .captureScreenshot _ _ _ =>
    if s.clients = 0 then (s, .noExecutor noExtMsg)
    else registerRequest s .capture_screenshot 10000
  | .navigate url _ =>
    if url = "" then (s, .badRequest "URL is required")
    else if s.clients = 0 then (s, .noExecutor noExtMsg)
    else registerRequest s .navigate 30000
  | .getPostData => (s, .postData s.posts.getLast?)
  | .status => (s, .statusInfo s.clients s.pending.length s.posts.length)

/-- The event sources driving the engine: WebSocket connect/disconnect,
tool calls, inbound messages, timer callbacks, the reaper tick, and the
passage of time.  Time never silently passes an armed timer's deadline:
a `setTimeout` callback runs once its delay elapses. -/
inductive Event where
  | connect
  | disconnect
  | callTool (tc : ToolCall)
  | message (m : InMsg)
  | timer (id : Nat)
  | reaperTick
  | advance (dt : Nat)
deriving DecidableEq

/-- Small-step semantics of the engine. -/
def step (s : ServerState) (ev : Event) : ServerState :=
  match ev with
  | .connect => { s with clients := s.clients + 1 }
  | .disconnect => { s with clients := s.clients - 1 }
  | .callTool tc => (handleTool s tc).1
  | .message m => handleMessage s m
  | .timer id => fireTimer s id
  | .reaperTick => sweepExpired s
  | .advance dt =>
    if s.pending.all (fun e => s.now + dt ≤ e.deadline) then
      { s with now := s.now + dt }
    else s

/-- Run a list of events. -/
def run (s : ServerState) (evs : List Event) : ServerState :=
  evs.foldl step s

/-- States reachable from the initial state. -/
inductive Reachable : ServerState → Prop where
  | init : Reachable initState
  | next {s : ServerState} (ev : Event) : Reachable s → Reachable (step s ev)

/-- Whether an event is a `create_linkedin_post` tool call (the only event
that appends to `postDataStore`). -/
def isCreatePostEv : Event → Bool
  | .callTool (.createPost _ _) => true
  | _ => false

/-- The state invariant of the engine: pending ids are unique, each id
below the fresh-id counter belongs to exactly one of the pending table and
the delivered-outcome history (present iff unresolved), timers are armed
exactly for pending entries, outcomes are delivered at most once, and no
pending entry's per-request deadline has passed. -/
structure Inv (s : ServerState) : Prop where
  pendingNodup : (pendingIds s).Nodup
  resolvedNodup : (resolvedIds s).Nodup
  pendingResolvedDisjoint : ∀ id, id ∈ pendingIds s → id ∉ resolvedIds s
  pendingLtCounter : ∀ id ∈ pendingIds s, id < s.counter
  resolvedLtCounter : ∀ id ∈ resolvedIds s, id < s.counter
  counterCovered : ∀ id, id < s.counter → id ∈ pendingIds s ∨ id ∈ resolvedIds s
  timersIffPending : ∀ id, id ∈ s.timers ↔ id ∈ pendingIds s
  deadlineNotPassed : ∀ e ∈ s.pending, s.now ≤ e.deadline

/-- An entry already in the table (for the duplicate-insert analysis). -/
def dupEntryOld : Entry := ⟨5, .execute, 0, 30000⟩

/-- A distinct entry carrying the same id as `dupEntryOld`. -/
def dupEntryNew : Entry := ⟨5, .show_alert, 100, 10000⟩

/-- A pending entry whose 10-second deadline has long passed. -/
def staleCexEntry : Entry := ⟨0, .show_alert, 0, 10000⟩

/-- A state at `now = 20000` holding `staleCexEntry`: its per-kind deadline
(10000) has passed, but its age (20000 ms) is under the reaper's 60000 ms
ceiling. -/
def staleCexState : ServerState := ⟨20000, 1, 1, [staleCexEntry], [0], [], []⟩

/-- A pending `show_alert` entry for the timeout scenario. -/
def c3Entry : Entry := ⟨0, .show_alert, 0, 10000⟩

/-- A state sitting exactly at `c3Entry`'s deadline with its timer armed. -/
def c3State : ServerState := ⟨10000, 1, 1, [c3Entry], [0], [], []⟩

/-- A pending `execute` entry awaiting its completion. -/
def c4Entry : Entry := ⟨0, .execute, 0, 30000⟩

/-- A state with `c4Entry` pending and its timer armed. -/
def c4State : ServerState := ⟨5000, 1, 1, [c4Entry], [0], [], []⟩

/-- A state with one pending entry (id 0); id 7 is unknown to the table. -/
def c8State : ServerState := ⟨5000, 1, 1, [⟨0, .navigate, 0, 30000⟩], [0], [], []⟩

/-- A state with a pending `execute` entry for the spread-override scenario. -/
def c10State : ServerState := ⟨5000, 1, 1, [⟨0, .execute, 0, 30000⟩], [0], [], []⟩

/-- A result payload that itself carries `success: false`. -/
def c10Result : JObj := [("success", JVal.bool false), ("value", JVal.num 3)]

/-- A reachable state: one executor connects, then a `browser_execute`
dispatch registers request 0. -/
def c1State : ServerState :=
  step (step initState .connect) (.callTool (.browserExecute "1+1" none none none))

/-- A reachable state: one executor connects, then a `browser_navigate`
dispatch registers request 0. -/
def c6State : ServerState :=
  step (step initState .connect) (.callTool (.navigate "https://x" none))

/-- A state with one connected executor and empty table/store. -/
def c9State : ServerState := ⟨0, 0, 1, [], [], [], []⟩

/-- The post created in the `create_linkedin_post` scenario. -/
def c9Post : LinkedInPostData := ⟨"hello", 0, none⟩

/-! ### General list helpers -/

theorem length_filter_not_add {α : Type _} (l : List α) (p : α → Bool) :
    (l.filter (fun a => !(p a))).length + (l.filter p).length = l.length := by
  induction l with
  | nil => rfl
  | cons a l ih => cases h : p a <;> simp [List.filter_cons, h] <;> omega

theorem nodup_concat_of_not_mem {α : Type _} (l : List α) (a : α) (h : a ∉ l)
    (hn : l.Nodup) : (l ++ [a]).Nodup := by
  rw [List.nodup_append]
  refine ⟨hn, List.nodup_singleton a, ?_⟩
  intro x hx hxa
  simp at hxa
  exact h (hxa ▸ hx)

/-! ### Basic facts about the table operations -/

theorem findEntry_filter_self (l : List Entry) (id : Nat) :
    findEntry (l.filter (fun e => e.id != id)) id = none := by
  rw [findEntry, List.find?_eq_none]
  intro e he
  simp only [List.mem_filter, bne_iff_ne, ne_eq] at he
  simp [he.2]

theorem handleMessage_complete_miss (s : ServerState) (id : Nat) (r : JObj)
    (h : findEntry s.pending id = none) :
    handleMessage s (.requestComplete id r) = s := by
  simp [handleMessage, h]

theorem handleMessage_failed_miss (s : ServerState) (id : Nat) (err : JVal)
    (h : findEntry s.pending id = none) :
    handleMessage s (.requestFailed id err) = s := by
  simp [handleMessage, h]

theorem handleMessage_complete_hit (s : ServerState) (id : Nat) (e : Entry) (r : JObj)
    (h : findEntry s.pending id = some e) :
    handleMessage s (.requestComplete id r) = resolveEntry s id (.fromCompletion r) := by
  simp [handleMessage, h]

theorem handleMessage_failed_hit (s : ServerState) (id : Nat) (e : Entry) (err : JVal)
    (h : findEntry s.pending id = some e) :
    handleMessage s (.requestFailed id err) = resolveEntry s id (.fromFailure err) := by
  simp [handleMessage, h]

theorem mapSet_fresh (m : List Entry) (e : Entry) (h : ∀ x ∈ m, x.id ≠ e.id) :
    mapSet m e = m ++ [e] := by
  rw [mapSet, if_neg]
  intro hc
  rw [List.any_eq_true] at hc
  obtain ⟨x, hx, hxe⟩ := hc
  exact h x hx (by simpa using hxe)

theorem map_id_filter_ne (l : List Entry) (id : Nat) :
    (l.filter (fun e => e.id != id)).map Entry.id =
      (l.map Entry.id).filter (fun t => t != id) := by
  induction l with
  | nil => rfl
  | cons e l ih => cases h : (e.id != id) <;> simp [List.filter_cons, h, ih]

theorem pendingIds_resolveEntry (s : ServerState) (id : Nat) (o : Outcome) :
    pendingIds (resolveEntry s id o) = (pendingIds s).filter (fun t => t != id) := by
  simpa [pendingIds, resolveEntry] using map_id_filter_ne s.pending id

theorem resolvedIds_resolveEntry (s : ServerState) (id : Nat) (o : Outcome) :
    resolvedIds (resolveEntry s id o) = resolvedIds s ++ [id] := by
  simp [resolvedIds, resolveEntry]

theorem mem_pendingIds_of_findEntry (s : ServerState) (id : Nat) (e : Entry)
    (h : findEntry s.pending id = some e) : id ∈ pendingIds s := by
  have he : e ∈ s.pending := List.mem_of_find?_eq_some h
  have hid : e.id = id := by simpa using List.find?_some h
  exact hid ▸ List.mem_map_of_mem Entry.id he

/-! ### Preservation of the invariant -/

theorem inv_resolveEntry (s : ServerState) (id : Nat) (o : Outcome)
    (h : Inv s) (hid : id ∈ pendingIds s) : Inv (resolveEntry s id o) := by
  have hres : id ∉ resolvedIds s := h.pendingResolvedDisjoint id hid
  have hpend : ∀ t, t ∈ pendingIds (resolveEntry s id o) ↔ t ∈ pendingIds s ∧ t ≠ id := by
    intro t
    rw [pendingIds_resolveEntry]
    simp
  have hresv : ∀ t, t ∈ resolvedIds (resolveEntry s id o) ↔ t ∈ resolvedIds s ∨ t = id := by
    intro t
    rw [resolvedIds_resolveEntry]
    simp
  constructor
  · rw [pendingIds_resolveEntry]
    exact h.pendingNodup.filter _
  · rw [resolvedIds_resolveEntry]
    exact nodup_concat_of_not_mem _ _ hres h.resolvedNodup
  · intro t ht
    rw [hpend t] at ht
    rw [hresv t]
    push_neg
    exact ⟨h.pendingResolvedDisjoint t ht.1, ht.2⟩
  · intro t ht
    rw [hpend t] at ht
    exact h.pendingLtCounter t ht.1
  · intro t ht
    rw [hresv t] at ht
    rcases ht with ht | rfl
    · exact h.resolvedLtCounter t ht
    · exact h.pendingLtCounter t hid
  · intro t htc
    rcases h.counterCovered t htc with hp | hr
    · by_cases he : t = id
      · subst he
        exact Or.inr ((hresv t).mpr (Or.inr rfl))
      · exact Or.inl ((hpend t).mpr ⟨hp, he⟩)
    · exact Or.inr ((hresv t).mpr (Or.inl hr))
  · intro t
    constructor
    · intro ht
      have ht' : t ∈ s.timers ∧ t ≠ id := by
        simpa [resolveEntry] using ht
      exact (hpend t).mpr ⟨(h.timersIffPending t).mp ht'.1, ht'.2⟩
    · intro ht
      rw [hpend t] at ht
      have htm := (h.timersIffPending t).mpr ht.1
      simp [resolveEntry, List.mem_filter, htm, ht.2]
  · intro e he
    exact h.deadlineNotPassed e (List.mem_of_mem_filter he)

theorem inv_registerRequest (s : ServerState) (t : ReqType) (ms : Nat) (h : Inv s) :
    Inv (registerRequest s t ms).1 := by
  have hfresh : ∀ x ∈ s.pending, x.id ≠ s.counter := by
    intro x hx
    exact Nat.ne_of_lt (h.pendingLtCounter x.id (List.mem_map_of_mem Entry.id hx))
  have hset : mapSet s.pending ⟨s.counter, t, s.now, ms⟩ =
      s.pending ++ [⟨s.counter, t, s.now, ms⟩] := mapSet_fresh _ _ hfresh
  have hpids : pendingIds (registerRequest s t ms).1 = pendingIds s ++ [s.counter] := by
    simp [registerRequest, pendingIds, hset]
  have hrids : resolvedIds (registerRequest s t ms).1 = resolvedIds s := rfl
  have hcnt : (registerRequest s t ms).1.counter = s.counter + 1 := rfl
  have hcm : s.counter ∉ pendingIds s := fun hm =>
    Nat.lt_irrefl s.counter (h.pendingLtCounter s.counter hm)
  constructor
  · rw [hpids]
    exact nodup_concat_of_not_mem _ _ hcm h.pendingNodup
  · rw [hrids]
    exact h.resolvedNodup
  · intro u hu
    rw [hpids] at hu
    rw [hrids]
    rcases List.mem_append.mp hu with hu | hu
    · exact h.pendingResolvedDisjoint u hu
    · have hue : u = s.counter := by simpa using hu
      rw [hue]
      intro hc
      exact Nat.lt_irrefl s.counter (h.resolvedLtCounter s.counter hc)
  · intro u hu
    rw [hpids] at hu
    rw [hcnt]
    rcases List.mem_append.mp hu with hu | hu
    · exact Nat.lt_succ_of_lt (h.pendingLtCounter u hu)
    · have hue : u = s.counter := by simpa using hu
      simp [hue]
  · intro u hu
    rw [hrids] at hu
    rw [hcnt]
    exact Nat.lt_succ_of_lt (h.resolvedLtCounter u hu)
  · intro u hu
    rw [hcnt] at hu
    rw [hpids, hrids]
    rcases Nat.lt_succ_iff_lt_or_eq.mp hu with hu | rfl
    · rcases h.counterCovered u hu with hp | hr
      · exact Or.inl (List.mem_append.mpr (Or.inl hp))
      · exact Or.inr hr
    · exact Or.inl (List.mem_append.mpr (Or.inr (by simp)))
  · intro u
    have htm : (registerRequest s t ms).1.timers = s.counter :: s.timers := rfl
    rw [htm, hpids]
    simp only [List.mem_cons, List.mem_append, List.mem_singleton]
    rw [h.timersIffPending u]
    tauto
  · intro e he
    have hpd : (registerRequest s t ms).1.pending =
        s.pending ++ [⟨s.counter, t, s.now, ms⟩] := by
      simpa [registerRequest] using hset
    rw [hpd] at he
    rcases List.mem_append.mp he with he | he
    · exact h.deadlineNotPassed e he
    · have hee : e = ⟨s.counter, t, s.now, ms⟩ := by simpa using he
      subst hee
      simp only [Entry.deadline]
      exact Nat.le_add_right s.now ms

theorem inv_set_posts (s : ServerState) (p : List LinkedInPostData) (h : Inv s) :
    Inv { s with posts := p } :=
  ⟨h.pendingNodup, h.resolvedNodup, h.pendingResolvedDisjoint, h.pendingLtCounter,
   h.resolvedLtCounter, h.counterCovered, h.timersIffPending, h.deadlineNotPassed⟩

theorem inv_set_clients (s : ServerState) (n : Nat) (h : Inv s) :
    Inv { s with clients := n } :=
  ⟨h.pendingNodup, h.resolvedNodup, h.pendingResolvedDisjoint, h.pendingLtCounter,
   h.resolvedLtCounter, h.counterCovered, h.timersIffPending, h.deadlineNotPassed⟩

theorem inv_handleTool (s : ServerState) (tc : ToolCall) (h : Inv s) :
    Inv (handleTool s tc).1 := by
  cases tc with
  | createPost content md =>
    by_cases hc : content = ""
    · simpa [handleTool, hc] using h
    · by_cases hcl : s.clients = 0
      · simpa [handleTool, hc, hcl] using h
      · have hr := inv_registerRequest { s with posts := s.posts ++ [⟨content, s.now, md⟩] }
          .new_post 30000 (inv_set_posts s _ h)
        simpa [handleTool, hc, hcl] using hr
  | showAlert msg ti =>
    by_cases hm : msg = ""
    · simpa [handleTool, hm] using h
    · by_cases hcl : s.clients = 0
      · simpa [handleTool, hm, hcl] using h
      · simpa [handleTool, hm, hcl] using inv_registerRequest s .show_alert 10000 h
  | browserExecute code u ts tp =>
    by_cases hc : code = ""
    · simpa [handleTool, hc] using h
    · by_cases hcl : s.clients = 0
      · simpa [handleTool, hc, hcl] using h
      · simpa [handleTool, hc, hcl] using
          inv_registerRequest s .execute (orDefault tp 30000) h
  | captureDom sel im =>
    by_cases hcl : s.clients = 0
    · simpa [handleTool, hcl] using h
    · simpa [handleTool, hcl] using inv_registerRequest s .capture_dom 10000 h
  | captureScreenshot sel fp q =>
    by_cases hcl : s.clients = 0
    · simpa [handleTool, hcl] using h
    · simpa [handleTool, hcl] using inv_registerRequest s .capture_screenshot 10000 h
  | navigate url w =>
    by_cases hu : url = ""
    · simpa [handleTool, hu] using h
    · by_cases hcl : s.clients = 0
      · simpa [handleTool, hu, hcl] using h
      · simpa [handleTool, hu, hcl] using inv_registerRequest s .navigate 30000 h
  | getPostData => exact h
  | status => exact h

theorem inv_handleMessage (s : ServerState) (m : InMsg) (h : Inv s) :
    Inv (handleMessage s m) := by
  cases m with
  | requestComplete rid r =>
    cases hf : findEntry s.pending rid with
    | none =>
      rw [handleMessage_complete_miss s rid r hf]
      exact h
    | some e =>
      rw [handleMessage_complete_hit s rid e r hf]
      exact inv_resolveEntry s rid _ h (mem_pendingIds_of_findEntry s rid e hf)
  | requestFailed rid err =>
    cases hf : findEntry s.pending rid with
    | none =>
      rw [handleMessage_failed_miss s rid err hf]
      exact h
    | some e =>
      rw [handleMessage_failed_hit s rid e err hf]
      exact inv_resolveEntry s rid _ h (mem_pendingIds_of_findEntry s rid e hf)
  | getLatestPost => exact h
  | unknownMsg => exact h

theorem inv_fireTimer (s : ServerState) (id : Nat) (h : Inv s) :
    Inv (fireTimer s id) := by
  cases hf : findEntry s.pending id with
  | none => simpa [fireTimer, hf] using h
  | some e =>
    by_cases hg : id ∈ s.timers ∧ e.deadline ≤ s.now
    · have hft : fireTimer s id = resolveEntry s id (.fromTimer e.rtype e.timeoutMs) := by
        simp only [fireTimer, hf]
        rw [if_pos hg]
      rw [hft]
      exact inv_resolveEntry s id _ h (mem_pendingIds_of_findEntry s id e hf)
    · have hft : fireTimer s id = s := by
        simp only [fireTimer, hf]
        rw [if_neg hg]
      rw [hft]
      exact h

theorem sweep_stale_ids_pending (s : ServerState) :
    ∀ t, t ∈ (s.pending.filter (fun e => isStale s.now e)).map Entry.id →
      t ∈ pendingIds s := by
  intro t ht
  exact ((List.filter_sublist s.pending).map Entry.id).subset ht

theorem sweep_kept_ids_pending (s : ServerState) :
    ∀ t, t ∈ pendingIds (sweepExpired s) → t ∈ pendingIds s := by
  intro t ht
  exact ((List.filter_sublist s.pending).map Entry.id).subset ht

theorem sweep_kept_stale_disjoint (s : ServerState) (hn : (pendingIds s).Nodup) :
    ∀ t, t ∈ pendingIds (sweepExpired s) →
      t ∉ (s.pending.filter (fun e => isStale s.now e)).map Entry.id := by
  intro t h1 h2
  obtain ⟨e1, he1, rfl⟩ := List.mem_map.mp h1
  obtain ⟨e2, he2, heq⟩ := List.mem_map.mp h2
  have hp1 : isStale s.now e1 = false := by
    have := (List.mem_filter.mp he1).2
    simpa using this
  have hp2 : isStale s.now e2 = true := (List.mem_filter.mp he2).2
  have hee : e2 = e1 :=
    List.inj_on_of_nodup_map hn (List.mem_of_mem_filter he2)
      (List.mem_of_mem_filter he1) heq
  rw [hee, hp1] at hp2
  exact Bool.false_ne_true hp2

theorem sweep_resolvedIds (s : ServerState) :
    resolvedIds (sweepExpired s) =
      resolvedIds s ++ (s.pending.filter (fun e => isStale s.now e)).map Entry.id := by
  simp [resolvedIds, sweepExpired, List.map_map, Function.comp]

theorem sweep_covers_pending (s : ServerState) :
    ∀ t, t ∈ pendingIds s → t ∈ pendingIds (sweepExpired s) ∨
      t ∈ (s.pending.filter (fun e => isStale s.now e)).map Entry.id := by
  intro t ht
  obtain ⟨e, he, rfl⟩ := List.mem_map.mp ht
  cases hst : isStale s.now e with
  | true =>
    exact Or.inr (List.mem_map_of_mem Entry.id (List.mem_filter.mpr ⟨he, hst⟩))
  | false =>
    refine Or.inl (List.mem_map_of_mem Entry.id (List.mem_filter.mpr ⟨he, ?_⟩))
    simp [hst]

theorem inv_sweepExpired (s : ServerState) (h : Inv s) : Inv (sweepExpired s) := by
  have hkeptsub := sweep_kept_ids_pending s
  have hstalesub := sweep_stale_ids_pending s
  have hdisj := sweep_kept_stale_disjoint s h.pendingNodup
  constructor
  · exact h.pendingNodup.sublist ((List.filter_sublist s.pending).map Entry.id)
  · rw [sweep_resolvedIds]
    rw [List.nodup_append]
    refine ⟨h.resolvedNodup, ?_, ?_⟩
    · exact (h.pendingNodup.sublist ((List.filter_sublist s.pending).map Entry.id))
    · intro t ht hts
      exact h.pendingResolvedDisjoint t (hstalesub t hts) ht
  · intro t ht
    rw [sweep_resolvedIds]
    intro hmem
    rcases List.mem_append.mp hmem with hr | hs'
    · exact h.pendingResolvedDisjoint t (hkeptsub t ht) hr
    · exact hdisj t ht hs'
  · intro t ht
    exact h.pendingLtCounter t (hkeptsub t ht)
  · intro t ht
    rw [sweep_resolvedIds] at ht
    rcases List.mem_append.mp ht with hr | hs'
    · exact h.resolvedLtCounter t hr
    · exact h.pendingLtCounter t (hstalesub t hs')
  · intro t htc
    rcases h.counterCovered t htc with hp | hr
    · rcases sweep_covers_pending s t hp with hk | hs'
      · exact Or.inl hk
      · refine Or.inr ?_
        rw [sweep_resolvedIds]
        exact List.mem_append.mpr (Or.inr hs')
    · refine Or.inr ?_
      rw [sweep_resolvedIds]
      exact List.mem_append.mpr (Or.inl hr)
  · intro t
    have htm : (sweepExpired s).timers =
        s.timers.filter (fun t =>
          !(((s.pending.filter (fun e => isStale s.now e)).map Entry.id).contains t)) := rfl
    rw [htm]
    simp only [List.mem_filter, Bool.not_eq_true']
    constructor
    · rintro ⟨ht, hnc⟩
      have hp := (h.timersIffPending t).mp ht
      have hns : t ∉ (s.pending.filter (fun e => isStale s.now e)).map Entry.id := by
        intro hc
        simp [List.elem_iff] at hnc
        obtain ⟨x, hxf, hxid⟩ := List.mem_map.mp hc
        obtain ⟨hx, hst⟩ := List.mem_filter.mp hxf
        exact hnc x hx hst hxid
      rcases sweep_covers_pending s t hp with hk | hs'
      · exact hk
      · exact absurd hs' hns
    · intro hk
      refine ⟨(h.timersIffPending t).mpr (hkeptsub t hk), ?_⟩
      simp [List.elem_iff]
      intro x hx hst hxid
      exact hdisj t hk (List.mem_map.mpr ⟨x, List.mem_filter.mpr ⟨hx, hst⟩, hxid⟩)
  · intro e he
    exact h.deadlineNotPassed e (List.mem_of_mem_filter he)

theorem inv_init : Inv initState := by
  refine ⟨?_, ?_, ?_, ?_, ?_, ?_, ?_, ?_⟩ <;>
    simp [initState, pendingIds, resolvedIds]

theorem inv_step (s : ServerState) (ev : Event) (h : Inv s) : Inv (step s ev) := by
  cases ev with
  | connect => exact inv_set_clients s _ h
  | disconnect => exact inv_set_clients s _ h
  | callTool tc => exact inv_handleTool s tc h
  | message m => exact inv_handleMessage s m h
  | timer id => exact inv_fireTimer s id h
  | reaperTick => exact inv_sweepExpired s h
  | advance dt =>
    by_cases hg : s.pending.all (fun e => s.now + dt ≤ e.deadline) = true
    · have hst : step s (.advance dt) = { s with now := s.now + dt } := by
        simp only [step]
        rw [if_pos hg]
      rw [hst]
      have hd : ∀ e ∈ s.pending, s.now + dt ≤ e.deadline := by
        rw [List.all_eq_true] at hg
        intro e he
        simpa using hg e he
      exact ⟨h.pendingNodup, h.resolvedNodup, h.pendingResolvedDisjoint, h.pendingLtCounter,
        h.resolvedLtCounter, h.counterCovered, h.timersIffPending, hd⟩
    · have hst : step s (.advance dt) = s := by
        simp only [step]
        rw [if_neg hg]
      rw [hst]
      exact h

theorem inv_reachable {s : ServerState} (h : Reachable s) : Inv s := by
  induction h with
  | init => exact inv_init
  | next ev hr ih => exact inv_step _ ev ih

theorem resolveEntry_counter (s : ServerState) (id : Nat) (o : Outcome) :
    (resolveEntry s id o).counter = s.counter := rfl

theorem handleMessage_counter (s : ServerState) (m : InMsg) :
    (handleMessage s m).counter = s.counter := by
  cases m with
  | requestComplete rid r =>
    cases hf : findEntry s.pending rid <;> simp [handleMessage, hf, resolveEntry]
  | requestFailed rid err =>
    cases hf : findEntry s.pending rid <;> simp [handleMessage, hf, resolveEntry]
  | getLatestPost => rfl
  | unknownMsg => rfl

theorem fireTimer_counter (s : ServerState) (id : Nat) :
    (fireTimer s id).counter = s.counter := by
  cases hf : findEntry s.pending id with
  | none => simp [fireTimer, hf]
  | some e =>
    by_cases hg : id ∈ s.timers ∧ e.deadline ≤ s.now
    · simp only [fireTimer, hf]
      rw [if_pos hg]
      rfl
    · simp only [fireTimer, hf]
      rw [if_neg hg]

theorem counter_mono (s : ServerState) (ev : Event) : s.counter ≤ (step s ev).counter := by
  cases ev with
  | connect => exact Nat.le_refl _
  | disconnect => exact Nat.le_refl _
  | callTool tc =>
    cases tc with
    | createPost content md =>
      simp only [step, handleTool]
      split
      · exact Nat.le_refl _
      · split
        · exact Nat.le_refl _
        · exact Nat.le_succ _
    | showAlert msg ti =>
      simp only [step, handleTool]
      split
      · exact Nat.le_refl _
      · split
        · exact Nat.le_refl _
        · exact Nat.le_succ _
    | browserExecute code u ts tp =>
      simp only [step, handleTool]
      split
      · exact Nat.le_refl _
      · split
        · exact Nat.le_refl _
        · exact Nat.le_succ _
    | captureDom sel im =>
      simp only [step, handleTool]
      split
      · exact Nat.le_refl _
      · exact Nat.le_succ _
    | captureScreenshot sel fp q =>
      simp only [step, handleTool]
      split
      · exact Nat.le_refl _
      · exact Nat.le_succ _
    | navigate url w =>
      simp only [step, handleTool]
      split
      · exact Nat.le_refl _
      · split
        · exact Nat.le_refl _
        · exact Nat.le_succ _
    | getPostData => exact Nat.le_refl _
    | status => exact Nat.le_refl _
  | message m => exact Nat.le_of_eq (handleMessage_counter s m).symm
  | timer id => exact Nat.le_of_eq (fireTimer_counter s id).symm
  | reaperTick => exact Nat.le_refl _
  | advance dt =>
    simp only [step]
    split
    · exact Nat.le_refl _
    · exact Nat.le_refl _

/-! ### Claim theorems: fast-fail, completion routing, unknown ids -/

/-- C2: while zero executor channels are registered (`wsClients.size === 0`),
every dispatching tool endpoint (once its parameter validation passes)
fails with the 503 no-executor error and returns the state unchanged —
in particular the pending table, its size, and the armed-timer set are
untouched. -/
theorem noExecutor_fails_fast (s : ServerState) (h : s.clients = 0) :
    (∀ content md, content ≠ "" →
      handleTool s (.createPost content md) = (s, .noExecutor noExtLinkedInMsg)) ∧
    (∀ message t, message ≠ "" →
      handleTool s (.showAlert message t) = (s, .noExecutor noExtLinkedInMsg)) ∧
    (∀ code u ts tp, code ≠ "" →
      handleTool s (.browserExecute code u ts tp) = (s, .noExecutor noExtMsg)) ∧
    (∀ sel im, handleTool s (.captureDom sel im) = (s, .noExecutor noExtMsg)) ∧
    (∀ sel fp q, handleTool s (.captureScreenshot sel fp q) = (s, .noExecutor noExtMsg)) ∧
    (∀ url w, url ≠ "" → handleTool s (.navigate url w) = (s, .noExecutor noExtMsg)) := by
  refine ⟨?_, ?_, ?_, ?_, ?_, ?_⟩ <;> intros <;> simp_all [handleTool]

/-- Witness for C2 at the initial state (no executor connected):
`browser_execute` fails fast with the exact state unchanged. -/
theorem noExecutor_fails_fast_witness :
    handleTool initState (.browserExecute "1+1" none none none) =
      (initState, .noExecutor noExtMsg) :=
  (noExecutor_fails_fast initState rfl).2.2.1 "1+1" none none none (by decide)

/-- C4: a `request_complete` or `request_failed` message whose id is
pending resolves that dispatch call with the matching outcome, cancels its
per-request timer, and deletes the table entry. -/
theorem completion_resolves_pending (s : ServerState) (id : Nat) (e : Entry)
    (h : findEntry s.pending id = some e) :
    (∀ r, (handleMessage s (.requestComplete id r)).pending =
        s.pending.filter (fun x => x.id != id) ∧
      id ∉ (handleMessage s (.requestComplete id r)).timers ∧
      (id, Outcome.fromCompletion r) ∈ (handleMessage s (.requestComplete id r)).resolved) ∧
    (∀ err, (handleMessage s (.requestFailed id err)).pending =
        s.pending.filter (fun x => x.id != id) ∧
      id ∉ (handleMessage s (.requestFailed id err)).timers ∧
      (id, Outcome.fromFailure err) ∈ (handleMessage s (.requestFailed id err)).resolved) := by
  constructor
  · intro r
    rw [handleMessage_complete_hit s id e r h]
    refine ⟨rfl, ?_, ?_⟩
    · simp [resolveEntry]
    · simp [resolveEntry]
  · intro err
    rw [handleMessage_failed_hit s id e err h]
    refine ⟨rfl, ?_, ?_⟩
    · simp [resolveEntry]
    · simp [resolveEntry]

/-- Witness for C4: a concrete completion for pending id 0 removes the
entry, disarms the timer, and records the delivered outcome. -/
theorem completion_resolves_pending_witness :
    (handleMessage c4State (.requestComplete 0 [])).pending =
        c4State.pending.filter (fun x => x.id != 0) ∧
      0 ∉ (handleMessage c4State (.requestComplete 0 [])).timers ∧
      (0, Outcome.fromCompletion []) ∈ (handleMessage c4State (.requestComplete 0 [])).resolved :=
  (completion_resolves_pending c4State 0 c4Entry (by decide)).1 []

/-- C8: a completion (or failure) message for an id not in the table is a
complete no-op: the resulting state is literally the input state, so the
table, client count, and every waiting caller's outcome history are
unchanged, and no error is surfaced. -/
theorem unknown_completion_noop (s : ServerState) (id : Nat)
    (h : findEntry s.pending id = none) :
    (∀ r, handleMessage s (.requestComplete id r) = s) ∧
    (∀ err, handleMessage s (.requestFailed id err) = s) :=
  ⟨fun r => handleMessage_complete_miss s id r h,
   fun err => handleMessage_failed_miss s id err h⟩

/-- Witness for C8: a completion for unknown id 7 leaves the concrete state
untouched. -/
theorem unknown_completion_noop_witness :
    handleMessage c8State (.requestComplete 7 []) = c8State :=
  (unknown_completion_noop c8State 7 (by decide)).1 []

/-- C10: a `request_complete` for a pending id resolves the caller with
`{ success: true, ...data.result }`; the spread places the executor's
result fields after the `success: true` literal, so a `success` field inside
the result shadows it — with `success: false` in the payload the caller
observes a failed outcome. -/
theorem complete_success_spread_override (s : ServerState) (id : Nat) (e : Entry)
    (r : JObj) (h : findEntry s.pending id = some e) :
    (id, Outcome.fromCompletion r) ∈ (handleMessage s (.requestComplete id r)).resolved ∧
    Outcome.toObj (Outcome.fromCompletion r) = ("success", JVal.bool true) :: r ∧
    (getField r "success" = some (JVal.bool false) →
      outcomeSuccess (Outcome.toObj (Outcome.fromCompletion r)) = false) := by
  refine ⟨?_, rfl, ?_⟩
  · rw [handleMessage_complete_hit s id e r h]
    simp [resolveEntry]
  · intro hr
    simp [outcomeSuccess, Outcome.toObj, getField, hr, jsTruthy]

/-- Witness for C10: with result payload `{success: false, value: 3}`, the
delivered object is `{success: true, ...result}` and the caller observes a
failed outcome. -/
theorem complete_success_spread_override_witness :
    (0, Outcome.fromCompletion c10Result) ∈
        (handleMessage c10State (.requestComplete 0 c10Result)).resolved ∧
      outcomeSuccess (Outcome.toObj (Outcome.fromCompletion c10Result)) = false := by
  have h := complete_success_spread_override c10State 0 ⟨0, .execute, 0, 30000⟩ c10Result (by decide)
  exact ⟨h.1, h.2.2 (by decide)⟩

/-! ### Claim theorems: duplicate insert (C7) -/

/-- Counterexample to C7: inserting an entry whose id (5) is already
present does not fail and is not treated as an invariant violation —
`Map.set` silently replaces the existing entry: the old entry is gone, the
new one is in its slot, and the table size is unchanged. -/
theorem insert_silently_replaces_cex :
    mapSet [dupEntryOld] dupEntryNew = [dupEntryNew] ∧
    (mapSet [dupEntryOld] dupEntryNew).length = 1 ∧
    dupEntryOld ∉ mapSet [dupEntryOld] dupEntryNew := by decide

/-- C7 (amended): inserting a request whose id is already present never
fails; `pendingRequests.set` silently replaces the existing entry in place,
leaving the table size unchanged. -/
theorem insert_replaces_on_duplicate (m : List Entry) (e : Entry)
    (h : m.any (fun x => x.id == e.id) = true) :
    mapSet m e = m.map (fun x => if x.id == e.id then e else x) ∧
    (mapSet m e).length = m.length := by
  rw [mapSet, if_pos h]
  exact ⟨rfl, List.length_map m _⟩

/-- Witness for amended C7 at the concrete duplicate insert. -/
theorem insert_replaces_on_duplicate_witness :
    mapSet [dupEntryOld] dupEntryNew =
      [dupEntryOld].map (fun x => if x.id == dupEntryNew.id then dupEntryNew else x) ∧
    (mapSet [dupEntryOld] dupEntryNew).length = [dupEntryOld].length :=
  insert_replaces_on_duplicate [dupEntryOld] dupEntryNew (by decide)

/-! ### Claim theorems: the reaper sweep (C5) -/

/-- Counterexample to C5: the reaper does not remove every entry whose
per-kind deadline has passed.  In `staleCexState` the single entry's
10-second deadline passed 10 seconds ago, yet the sweep leaves the state
(and the entry) exactly as it was, because the entry's age is below the
fixed 60000 ms ceiling the code actually tests. -/
theorem reaper_ignores_deadline_cex :
    staleCexEntry.deadline < staleCexState.now ∧
    sweepExpired staleCexState = staleCexState ∧
    findEntry (sweepExpired staleCexState).pending 0 = some staleCexEntry := by decide

/-- C5 (amended): the reaper sweep removes and force-resolves as expired
exactly the entries whose age exceeds the fixed 60-second ceiling
(`now - createdAt > 60000`), independent of per-kind deadlines and of
per-request timers; after a sweep the pending count excludes all swept
entries. -/
theorem reaper_sweeps_age_ceiling (s : ServerState) :
    (sweepExpired s).pending = s.pending.filter (fun e => !(isStale s.now e)) ∧
    (sweepExpired s).resolved = s.resolved ++
      (s.pending.filter (fun e => isStale s.now e)).map (fun e => (e.id, Outcome.fromReaper)) ∧
    (sweepExpired s).pending.length +
      (s.pending.filter (fun e => isStale s.now e)).length = s.pending.length ∧
    (∀ e ∈ s.pending, isStale s.now e →
      (e.id, Outcome.fromReaper) ∈ (sweepExpired s).resolved ∧
      e ∉ (sweepExpired s).pending) := by
  refine ⟨rfl, rfl, length_filter_not_add s.pending _, ?_⟩
  intro e he hst
  constructor
  · simp only [sweepExpired, List.mem_append, List.mem_map]
    exact Or.inr ⟨e, List.mem_filter.mpr ⟨he, hst⟩, rfl⟩
  · simp only [sweepExpired, List.mem_filter]
    rintro ⟨-, hne⟩
    simp [hst] at hne

/-! ### Claim theorems: per-request timeout (C3) -/

/-- C3: when a pending request's timer fires at (or past) its per-kind
deadline with no completion having arrived, the dispatch call is resolved
with the per-kind timeout failure (a falsy `success`), the entry is removed
from the table, and a completion or failure message for that id arriving
afterwards is dropped: the state is left exactly as it was. -/
theorem timeout_resolves_then_drops_late (s : ServerState) (id : Nat) (e : Entry)
    (hfind : findEntry s.pending id = some e)
    (harmed : id ∈ s.timers) (hdl : e.deadline ≤ s.now) :
    findEntry (fireTimer s id).pending id = none ∧
    (id, Outcome.fromTimer e.rtype e.timeoutMs) ∈ (fireTimer s id).resolved ∧
    outcomeSuccess (Outcome.toObj (Outcome.fromTimer e.rtype e.timeoutMs)) = false ∧
    (∀ r, handleMessage (fireTimer s id) (.requestComplete id r) = fireTimer s id) ∧
    (∀ err, handleMessage (fireTimer s id) (.requestFailed id err) = fireTimer s id) := by
  have hft : fireTimer s id = resolveEntry s id (.fromTimer e.rtype e.timeoutMs) := by
    simp [fireTimer, hfind, harmed, hdl]
  have hnone : findEntry (fireTimer s id).pending id = none := by
    rw [hft]
    exact findEntry_filter_self s.pending id
  refine ⟨hnone, ?_, ?_, ?_, ?_⟩
  · rw [hft]; simp [resolveEntry]
  · simp [outcomeSuccess, Outcome.toObj, getField, jsTruthy]
  · intro r; exact handleMessage_complete_miss _ id r hnone
  · intro err; exact handleMessage_failed_miss _ id err hnone

/-- Witness for C3 at `c3State`: the `show_alert` timer fires exactly at
its 10-second deadline, resolves the call with the timeout failure, and a
late completion is then dropped. -/
theorem timeout_resolves_then_drops_late_witness :
    findEntry (fireTimer c3State 0).pending 0 = none ∧
    (0, Outcome.fromTimer ReqType.show_alert 10000) ∈ (fireTimer c3State 0).resolved ∧
    handleMessage (fireTimer c3State 0) (.requestComplete 0 []) = fireTimer c3State 0 := by
  have h := timeout_resolves_then_drops_late c3State 0 c3Entry (by decide) (by decide) (by decide)
  exact ⟨h.1, h.2.1, h.2.2.2.1 []⟩

/-! ### Claim theorems: exactly-once resolution (C1) and the table invariant (C6) -/

/-- C1: in every reachable state, (a) no pending dispatch call has passed
its per-request deadline — time cannot pass an armed timer's deadline
without the timer resolving the call, so no call remains unresolved past
its deadline; (b) the delivered-outcome history contains at most one
outcome per id — no double resolution; (c) a pending call has no delivered
outcome yet; and (d) every dispatched id is either still pending (within
its deadline, by (a)) or has exactly one delivered outcome.  Together:
each dispatch call receives exactly one terminal outcome, by its deadline. -/
theorem dispatch_exactly_one_outcome (s : ServerState) (hs : Reachable s) :
    (∀ e ∈ s.pending, s.now ≤ e.deadline) ∧
    (resolvedIds s).Nodup ∧
    (∀ id, id ∈ pendingIds s → id ∉ resolvedIds s) ∧
    (∀ id, id < s.counter → id ∈ pendingIds s ∨ id ∈ resolvedIds s) := by
  have h := inv_reachable hs
  exact ⟨h.deadlineNotPassed, h.resolvedNodup, h.pendingResolvedDisjoint, h.counterCovered⟩

/-- Witness for C1 at the reachable state `c1State` (connect, then one
`browser_execute` dispatch): the dispatched id 0 is pending or resolved. -/
theorem dispatch_exactly_one_outcome_witness :
    0 ∈ pendingIds c1State ∨ 0 ∈ resolvedIds c1State :=
  (dispatch_exactly_one_outcome c1State
    (Reachable.next _ (Reachable.next _ Reachable.init))).2.2.2 0 (by decide)

/-- C6: in every reachable state each id maps to at most one pending entry
(the id list is duplicate-free); an id is in the table exactly when its
dispatch call is unresolved (dispatched, no delivered outcome); and every
step that removes a pending id delivers its outcome in that same atomic
step. -/
theorem pending_table_invariant (s : ServerState) (hs : Reachable s) :
    (pendingIds s).Nodup ∧
    (∀ id, id ∈ pendingIds s ↔ (id < s.counter ∧ id ∉ resolvedIds s)) ∧
    (∀ ev id, id ∈ pendingIds s → id ∉ pendingIds (step s ev) →
      id ∈ resolvedIds (step s ev)) := by
  have h := inv_reachable hs
  refine ⟨h.pendingNodup, ?_, ?_⟩
  · intro id
    constructor
    · intro hp
      exact ⟨h.pendingLtCounter id hp, h.pendingResolvedDisjoint id hp⟩
    · rintro ⟨hlt, hnr⟩
      rcases h.counterCovered id hlt with hp | hr
      · exact hp
      · exact absurd hr hnr
  · intro ev id hp hnp
    have h' := inv_step s ev h
    have hlt : id < (step s ev).counter :=
      Nat.lt_of_lt_of_le (h.pendingLtCounter id hp) (counter_mono s ev)
    rcases h'.counterCovered id hlt with hp' | hr'
    · exact absurd hp' hnp
    · exact hr'

/-- Witness for C6 at the reachable state `c6State` (connect, then one
`browser_navigate` dispatch): pending ids are duplicate-free and the
dispatched id 0, being unresolved, is in the table. -/
theorem pending_table_invariant_witness :
    (pendingIds c6State).Nodup ∧ 0 ∈ pendingIds c6State := by
  have h := pending_table_invariant c6State
    (Reachable.next _ (Reachable.next _ Reachable.init))
  exact ⟨h.1, (h.2.1 0).mpr (by decide)⟩

/-! ### Claim theorems: post store persistence (C9) -/

theorem handleMessage_posts (s : ServerState) (m : InMsg) :
    (handleMessage s m).posts = s.posts := by
  cases m with
  | requestComplete rid r =>
    cases hf : findEntry s.pending rid <;> simp [handleMessage, hf, resolveEntry]
  | requestFailed rid err =>
    cases hf : findEntry s.pending rid <;> simp [handleMessage, hf, resolveEntry]
  | getLatestPost => rfl
  | unknownMsg => rfl

theorem fireTimer_posts (s : ServerState) (id : Nat) :
    (fireTimer s id).posts = s.posts := by
  cases hf : findEntry s.pending id with
  | none => simp [fireTimer, hf]
  | some e =>
    by_cases hg : id ∈ s.timers ∧ e.deadline ≤ s.now
    · simp only [fireTimer, hf]
      rw [if_pos hg]
      rfl
    · simp only [fireTimer, hf]
      rw [if_neg hg]

theorem handleTool_posts_grow (s : ServerState) (tc : ToolCall) :
    ∃ l, (handleTool s tc).1.posts = s.posts ++ l := by
  cases tc with
  | createPost content md =>
    by_cases hc : content = ""
    · exact ⟨[], by simp [handleTool, hc]⟩
    · by_cases hcl : s.clients = 0
      · exact ⟨[], by simp [handleTool, hc, hcl]⟩
      · exact ⟨[⟨content, s.now, md⟩], by simp [handleTool, hc, hcl, registerRequest]⟩
  | showAlert msg ti =>
    refine ⟨[], ?_⟩
    by_cases hm : msg = ""
    · simp [handleTool, hm]
    · by_cases hcl : s.clients = 0 <;> simp [handleTool, hm, hcl, registerRequest]
  | browserExecute code u ts tp =>
    refine ⟨[], ?_⟩
    by_cases hc : code = ""
    · simp [handleTool, hc]
    · by_cases hcl : s.clients = 0 <;> simp [handleTool, hc, hcl, registerRequest]
  | captureDom sel im =>
    refine ⟨[], ?_⟩
    by_cases hcl : s.clients = 0 <;> simp [handleTool, hcl, registerRequest]
  | captureScreenshot sel fp q =>
    refine ⟨[], ?_⟩
    by_cases hcl : s.clients = 0 <;> simp [handleTool, hcl, registerRequest]
  | navigate url w =>
    refine ⟨[], ?_⟩
    by_cases hu : url = ""
    · simp [handleTool, hu]
    · by_cases hcl : s.clients = 0 <;> simp [handleTool, hu, hcl, registerRequest]
  | getPostData => exact ⟨[], by simp [handleTool]⟩
  | status => exact ⟨[], by simp [handleTool]⟩

theorem step_posts_grow (s : ServerState) (ev : Event) :
    ∃ l, (step s ev).posts = s.posts ++ l := by
  cases ev with
  | connect => exact ⟨[], by simp [step]⟩
  | disconnect => exact ⟨[], by simp [step]⟩
  | callTool tc => exact handleTool_posts_grow s tc
  | message m => exact ⟨[], by simp [step, handleMessage_posts]⟩
  | timer id => exact ⟨[], by simp [step, fireTimer_posts]⟩
  | reaperTick => exact ⟨[], by simp [step, sweepExpired]⟩
  | advance dt =>
    refine ⟨[], ?_⟩
    simp only [step]
    split <;> simp

theorem step_posts_of_not_create (s : ServerState) (ev : Event)
    (h : isCreatePostEv ev = false) : (step s ev).posts = s.posts := by
  cases ev with
  | connect => rfl
  | disconnect => rfl
  | callTool tc =>
    cases tc with
    | createPost content md => simp [isCreatePostEv] at h
    | showAlert msg ti =>
      rcases handleTool_posts_grow s (.showAlert msg ti) with ⟨l, hl⟩
      by_cases hm : msg = ""
      · simp [step, handleTool, hm]
      · by_cases hcl : s.clients = 0 <;> simp [step, handleTool, hm, hcl, registerRequest]
    | browserExecute code u ts tp =>
      by_cases hc : code = ""
      · simp [step, handleTool, hc]
      · by_cases hcl : s.clients = 0 <;> simp [step, handleTool, hc, hcl, registerRequest]
    | captureDom sel im =>
      by_cases hcl : s.clients = 0 <;> simp [step, handleTool, hcl, registerRequest]
    | captureScreenshot sel fp q =>
      by_cases hcl : s.clients = 0 <;> simp [step, handleTool, hcl, registerRequest]
    | navigate url w =>
      by_cases hu : url = ""
      · simp [step, handleTool, hu]
      · by_cases hcl : s.clients = 0 <;> simp [step, handleTool, hu, hcl, registerRequest]
    | getPostData => rfl
    | status => rfl
  | message m => exact handleMessage_posts s m
  | timer id => exact fireTimer_posts s id
  | reaperTick => rfl
  | advance dt =>
    simp only [step]
    split <;> rfl

theorem run_posts_mem (s : ServerState) (evs : List Event) (x : LinkedInPostData)
    (hx : x ∈ s.posts) : x ∈ (run s evs).posts := by
  induction evs generalizing s with
  | nil => exact hx
  | cons ev evs ih =>
    rcases step_posts_grow s ev with ⟨l, hl⟩
    exact ih (step s ev) (hl ▸ List.mem_append_left l hx)

theorem run_posts_of_no_create (s : ServerState) (evs : List Event)
    (h : ∀ ev ∈ evs, isCreatePostEv ev = false) : (run s evs).posts = s.posts := by
  induction evs generalizing s with
  | nil => rfl
  | cons ev evs ih =>
    have h1 : (step s ev).posts = s.posts :=
      step_posts_of_not_create s ev (h ev (List.mem_cons_self ev evs))
    have h2 := ih (step s ev) (fun e he => h e (List.mem_cons_of_mem ev he))
    exact h2.trans h1

/-- C9: `create_linkedin_post` appends the post to `postDataStore` before
the request is broadcast, and nothing ever removes it: the state right
after the call holds the post as the latest entry of the store, the post
stays in the store under any subsequent events (completions, failures,
timer fires, reaper sweeps — in particular when the dispatch outcome is
failure or timeout), and as long as no further `create_linkedin_post` call
occurs, `get_post_data` keeps returning it as the latest post. -/
theorem create_post_persisted (s : ServerState) (content : String) (md : Option JObj)
    (hc : content ≠ "") (hcl : ¬ s.clients = 0) :
    (handleTool s (.createPost content md)).1.posts =
      s.posts ++ [⟨content, s.now, md⟩] ∧
    (handleTool (handleTool s (.createPost content md)).1 .getPostData).2 =
      .postData (some ⟨content, s.now, md⟩) ∧
    (∀ evs : List Event,
      (⟨content, s.now, md⟩ : LinkedInPostData) ∈
        (run (handleTool s (.createPost content md)).1 evs).posts ∧
      ((∀ ev ∈ evs, isCreatePostEv ev = false) →
        (handleTool (run (handleTool s (.createPost content md)).1 evs) .getPostData).2 =
          .postData (some ⟨content, s.now, md⟩))) := by
  have h1 : (handleTool s (.createPost content md)).1.posts =
      s.posts ++ [⟨content, s.now, md⟩] := by
    simp [handleTool, hc, hcl, registerRequest]
  have hlatest : ∀ s1 : ServerState, s1.posts = s.posts ++ [⟨content, s.now, md⟩] →
      (handleTool s1 .getPostData).2 = .postData (some ⟨content, s.now, md⟩) := by
    intro s1 hs1
    simp [handleTool, hs1, List.getLast?_concat]
  refine ⟨h1, hlatest _ h1, ?_⟩
  intro evs
  constructor
  · refine run_posts_mem _ evs _ ?_
    rw [h1]
    exact List.mem_append_right _ (List.mem_singleton_self _)
  · intro hnc
    have h2 := run_posts_of_no_create (handleTool s (.createPost content md)).1 evs hnc
    exact hlatest _ (h2.trans h1)

/-- Witness for C9 at `c9State` ("hello" post, one executor connected,
followed by the request's timer firing — a timeout outcome): the post is
still stored and `get_post_data` returns it. -/
theorem create_post_persisted_witness :
    (handleTool c9State (.createPost "hello" none)).1.posts = c9State.posts ++ [c9Post] ∧
    c9Post ∈ (run (handleTool c9State (.createPost "hello" none)).1 [.timer 0]).posts := by
  have h := create_post_persisted c9State "hello" none (by decide) (by decide)
  exact ⟨h.1, (h.2.2 [.timer 0]).1⟩

end McpBackend
